import Mathlib

/- Verification development for the simple expression parser in
   `src/simple_parse.c`: a lexer (`input_lexer`), a recursive-descent parser
   (`expr`, `Expr`, `exprp`, `Exprp`, `exprpp`, `exprppp` and the terminal
   matchers), and three tree renderers (`pre_compl_par`/`strip_parens`/
   `compl_par`, and the postfix and prefix render functions).

   Modelling choices:
   * C strings are `List Char`; the doubly linked token list is a
     `List Token` consumed from the front (the parser only moves forward).
   * A `NULL` `struct pt_node *` is `none`; a node is `PtNode.node` carrying
     the integer tag (as `NType`), the lexeme, and the `child_ptrs` array
     (a list of possibly-NULL children, `List (Option PtNode)`).
   * Each parse function returns the (possibly NULL) node, the remaining
     token list (the cursor `*lexed_in_ptr` after the call), and the list of
     diagnostic lines the C code printf-ed during the call, in order.
   * General recursion is bounded by an explicit fuel parameter; the
     top-level wrappers use a fuel that strictly exceeds the recursion depth
     the C code reaches on every input evaluated in this file (the C parser
     nests at most a handful of calls per input token, and the renderers
     recurse at most once per tree node).  Running out of fuel yields the
     `NULL`/empty result; no theorem below depends on that case.
   * `malloc` failure and the unreachable `lexed_in_ptr == NULL` guards are
     not modelled (the C program passes the address of a local variable).
   * Where the C renderers would dereference a pointer that can only be
     invalid for trees the parser never builds (e.g. a continuation node
     with zero or two children), the model returns the empty string; no
     theorem depends on those cases either. -/

namespace SimpleParse

/-- Token types, `#define LPAREN 0` … `#define ATOM 7` in the C source. -/
inductive TokType where
  | LPAREN | RPAREN | EXP | MUL | DIV | ADD | SUB | ATOM
  deriving DecidableEq

/-- `struct token`: a type tag and a lexeme (the `prev`/`next` links are
represented by the position in the surrounding `List Token`). -/
structure Token where
  type : TokType
  string : List Char
  deriving DecidableEq

/-- Parse-tree node tags, `#define NEXPR 0` … `#define NEPSILON 14`. -/
inductive NType where
  | NEXPR | NeXPR | NEXPRP | NeXPRP | NEXPRPP | NEXPRPPP
  | NLPAREN | NRPAREN | NEXP | NMUL | NDIV | NADD | NSUB | NATOM | NEPSILON
  deriving DecidableEq

/-- `struct pt_node`: tag, lexeme, and the `child_ptrs` array; a child slot
may hold NULL (`none`).  `num_childs` is the length of the child list. -/
inductive PtNode where
  | node (type : NType) (string : List Char) (childs : List (Option PtNode))

/-- `isalpha` in the C locale: an ASCII letter. -/
def isAlphaC (c : Char) : Bool := ('a' ≤ c && c ≤ 'z') || ('A' ≤ c && c ≤ 'Z')

/-- `isdigit`: an ASCII digit. -/
def isDigitC (c : Char) : Bool := '0' ≤ c && c ≤ '9'

/-- The `switch (*user_input)` of `input_lexer`: the token type of a
single-character operator or parenthesis, `none` on the `default` branch. -/
def charTokType (c : Char) : Option TokType :=
  if c = '(' then some .LPAREN
  else if c = ')' then some .RPAREN
  else if c = '^' then some .EXP
  else if c = '*' then some .MUL
  else if c = '/' then some .DIV
  else if c = '+' then some .ADD
  else if c = '-' then some .SUB
  else none

/-- A character `input_lexer` accepts: letter, digit, or one of the seven
single-character tokens. -/
def validChar (c : Char) : Bool := isAlphaC c || isDigitC c || (charTokType c).isSome

/-- Fueled body of `input_lexer`: a maximal letter run or digit run becomes
one ATOM token, a recognised single character becomes its token, any other
character aborts the lexer (the C code prints "Invalid input!" and returns
NULL there; an empty input returns the empty token sequence). -/
def lexF : Nat → List Char → Option (List Token)
  | 0, _ => none
  | _ + 1, [] => some []
  | fuel + 1, c :: cs =>
    if isAlphaC c then
      (lexF fuel (cs.dropWhile isAlphaC)).map fun ts =>
        { type := .ATOM, string := c :: cs.takeWhile isAlphaC } :: ts
    else if isDigitC c then
      (lexF fuel (cs.dropWhile isDigitC)).map fun ts =>
        { type := .ATOM, string := c :: cs.takeWhile isDigitC } :: ts
    else
      match charTokType c with
      | some tt => (lexF fuel cs).map fun ts => { type := tt, string := [c] } :: ts
      | none => none

/-- `input_lexer`: each recursive step of `lexF` consumes at least one
character, so `length + 1` fuel always suffices. -/
def input_lexer (cs : List Char) : Option (List Token) := lexF (cs.length + 1) cs

/-- Result of one parse function: the produced (possibly NULL) node, the
token cursor after the call, and the diagnostics printed during the call. -/
structure PRes where
  node : Option PtNode
  rest : List Token
  msgs : List String

/-- The `epsilon()` node: tag NEPSILON, empty lexeme, no children. -/
def epsilonN : PtNode := .node .NEPSILON [] []

/-- Common shape of the terminal matchers `lparen` … `atom`: on the wanted
token type, build a leaf node and advance; otherwise print the failure
message and STILL advance past the offending token (the C code advances the
cursor on mismatch too); on exhausted input print the message and stay. -/
def matchLeaf (want : TokType) (nty : NType) (failMsg : String) :
    List Token → PRes
  | [] => ⟨none, [], [failMsg]⟩
  | t :: rest =>
    if t.type = want then ⟨some (.node nty t.string []), rest, []⟩
    else ⟨none, rest, [failMsg]⟩

def lparenP : List Token → PRes :=
  matchLeaf .LPAREN .NLPAREN "Failed to match left parenthesis!"
def rparenP : List Token → PRes :=
  matchLeaf .RPAREN .NRPAREN "Failed to match right parenthesis!"
def expoP : List Token → PRes :=
  matchLeaf .EXP .NEXP "Failed to match exponentiation operator!"
def mulP : List Token → PRes :=
  matchLeaf .MUL .NMUL "Failed to match multiplication operator!"
def quoP : List Token → PRes :=
  matchLeaf .DIV .NDIV "Failed to match division operator!"
def addP : List Token → PRes :=
  matchLeaf .ADD .NADD "Failed to match addition operator!"
def subP : List Token → PRes :=
  matchLeaf .SUB .NSUB "Failed to match subtraction operator!"
def atomP : List Token → PRes :=
  matchLeaf .ATOM .NATOM "Failed to match atom!"

/-- The lookahead loop of `exprpp` (lines 432-434): walk to the FIRST
RPAREN token; `none` when there is none, otherwise the (optional) token
immediately after that first RPAREN. -/
def afterFirstRparen : List Token → Option (Option Token)
  | [] => none
  | t :: rest => if t.type = .RPAREN then some rest.head? else afterFirstRparen rest

/-- Is the next token an EXP (`^`)?  Used for the `(*ptr)->next` check in
the ATOM branch of `exprpp`. -/
def nextIsExp : List Token → Bool
  | ⟨.EXP, _⟩ :: _ => true
  | _ => false

/-- Is this optional token an EXP token?  Used for the `lookahead->next`
check in the parenthesis branch of `exprpp`. -/
def isExpTok : Option Token → Bool
  | some ⟨.EXP, _⟩ => true
  | _ => false

mutual

/-- `expr`: always builds an NEXPR node with the results of `exprp` and
`Expr` as its two (possibly NULL) children. -/
def exprF : Nat → List Token → PRes
  | 0, ts => ⟨none, ts, []⟩
  | fuel + 1, ts =>
    let r1 := exprpF fuel ts
    let r2 := ExprF fuel r1.rest
    ⟨some (.node .NEXPR [] [r1.node, r2.node]), r2.rest, r1.msgs ++ r2.msgs⟩

/-- `Expr`: epsilon unless the next token is `+` or `-`, in which case it
consumes the operator and recurses (`op exprp Expr`). -/
def ExprF : Nat → List Token → PRes
  | 0, ts => ⟨none, ts, []⟩
  | _ + 1, [] => ⟨some (.node .NeXPR [] [some epsilonN]), [], []⟩
  | fuel + 1, t :: rest =>
    if t.type = .ADD ∨ t.type = .SUB then
      let r0 := if t.type = .ADD then addP (t :: rest) else subP (t :: rest)
      let r1 := exprpF fuel r0.rest
      let r2 := ExprF fuel r1.rest
      ⟨some (.node .NeXPR [] [r0.node, r1.node, r2.node]), r2.rest,
        r0.msgs ++ r1.msgs ++ r2.msgs⟩
    else ⟨some (.node .NeXPR [] [some epsilonN]), t :: rest, []⟩

/-- `exprp`: always builds an NEXPRP node from `exprpp` and `Exprp`. -/
def exprpF : Nat → List Token → PRes
  | 0, ts => ⟨none, ts, []⟩
  | fuel + 1, ts =>
    let r1 := exprppF fuel ts
    let r2 := ExprpF fuel r1.rest
    ⟨some (.node .NEXPRP [] [r1.node, r2.node]), r2.rest, r1.msgs ++ r2.msgs⟩

/-- `Exprp`: epsilon unless the next token is `*` or `/`. -/
def ExprpF : Nat → List Token → PRes
  | 0, ts => ⟨none, ts, []⟩
  | _ + 1, [] => ⟨some (.node .NeXPRP [] [some epsilonN]), [], []⟩
  | fuel + 1, t :: rest =>
    if t.type = .MUL ∨ t.type = .DIV then
      let r0 := if t.type = .MUL then mulP (t :: rest) else quoP (t :: rest)
      let r1 := exprppF fuel r0.rest
      let r2 := ExprpF fuel r1.rest
      ⟨some (.node .NeXPRP [] [r0.node, r1.node, r2.node]), r2.rest,
        r0.msgs ++ r1.msgs ++ r2.msgs⟩
    else ⟨some (.node .NeXPRP [] [some epsilonN]), t :: rest, []⟩

/-- `exprpp`: NULL on exhausted input (silently).  On an ATOM, look at the
next token to decide between `exprppp ^ exprpp` and plain `exprppp`.
Otherwise scan to the FIRST RPAREN token: if none exists print
"Invalid input!" and return NULL; if one exists, decide on the token right
after it. -/
def exprppF : Nat → List Token → PRes
  | 0, ts => ⟨none, ts, []⟩
  | _ + 1, [] => ⟨none, [], []⟩
  | fuel + 1, t :: rest =>
    if t.type = .ATOM then
      if nextIsExp rest then
        let r1 := exprpppF fuel (t :: rest)
        let r2 := expoP r1.rest
        let r3 := exprppF fuel r2.rest
        ⟨some (.node .NEXPRPP [] [r1.node, r2.node, r3.node]), r3.rest,
          r1.msgs ++ r2.msgs ++ r3.msgs⟩
      else
        let r1 := exprpppF fuel (t :: rest)
        ⟨some (.node .NEXPRPP [] [r1.node]), r1.rest, r1.msgs⟩
    else
      match afterFirstRparen (t :: rest) with
      | none => ⟨none, t :: rest, ["Invalid input!"]⟩
      | some after =>
        if isExpTok after then
          let r1 := exprpppF fuel (t :: rest)
          let r2 := expoP r1.rest
          let r3 := exprppF fuel r2.rest
          ⟨some (.node .NEXPRPP [] [r1.node, r2.node, r3.node]), r3.rest,
            r1.msgs ++ r2.msgs ++ r3.msgs⟩
        else
          let r1 := exprpppF fuel (t :: rest)
          ⟨some (.node .NEXPRPP [] [r1.node]), r1.rest, r1.msgs⟩

/-- `exprppp`: NULL on exhausted input; an ATOM leaf, or `( expr )`. -/
def exprpppF : Nat → List Token → PRes
  | 0, ts => ⟨none, ts, []⟩
  | _ + 1, [] => ⟨none, [], []⟩
  | fuel + 1, t :: rest =>
    if t.type = .ATOM then
      let r1 := atomP (t :: rest)
      ⟨some (.node .NEXPRPPP [] [r1.node]), r1.rest, r1.msgs⟩
    else
      let r1 := lparenP (t :: rest)
      let r2 := exprF fuel r1.rest
      let r3 := rparenP r2.rest
      ⟨some (.node .NEXPRPPP [] [r1.node, r2.node, r3.node]), r3.rest,
        r1.msgs ++ r2.msgs ++ r3.msgs⟩

end

/-- Top-level parse, `expr(&lexed_input)` in `main`.  Fuel 1000 exceeds the
call depth the C code reaches on every token list evaluated in this file. -/
def expr (ts : List Token) : PRes := exprF 1000 ts

/-- `head->string` through a possibly NULL pointer (the C renderers only
dereference non-NULL operator nodes on parser-built trees). -/
def nodeString : Option PtNode → List Char
  | none => []
  | some (.node _ s _) => s

/-- First while loop of the chain case of `pre_compl_par` (lines 725-728):
one extra `(` for every three-child continuation node along `child_ptrs[2]`. -/
def pcpOpensF : Nat → Option PtNode → List Char
  | 0, _ => []
  | fuel + 1, some (.node _ _ [_, _, k]) => '(' :: pcpOpensF fuel k
  | _ + 1, _ => []

mutual

/-- `pre_compl_par`: the fully-parenthesized render.  The cases appear in
the order of the C if-chain: the two chain cases (NEXPR/NEXPRP whose second
child has three children), the `^` case (NEXPRPP with three children),
operator and atom lexemes, pass-through of single-child NEXPRPPP, first-child
delegation for NEXPR/NEXPRP/NEXPRPP, and second-child delegation for a
parenthesized NEXPRPPP.  A NULL node renders as "" (after printing
"Invalid input!"); shapes the parser never builds render as "". -/
def pre_compl_parF : Nat → Option PtNode → List Char
  | 0, _ => []
  | _ + 1, none => []
  | fuel + 1, some (.node .NEXPR _ [c0, some (.node _ _ [o, r, k])]) =>
    '(' :: (pcpOpensF fuel k ++ pre_compl_parF fuel c0 ++ nodeString o ++
      pre_compl_parF fuel r ++ ')' :: pcpTailF fuel k)
  | fuel + 1, some (.node .NEXPRP _ [c0, some (.node _ _ [o, r, k])]) =>
    '(' :: (pcpOpensF fuel k ++ pre_compl_parF fuel c0 ++ nodeString o ++
      pre_compl_parF fuel r ++ ')' :: pcpTailF fuel k)
  | fuel + 1, some (.node .NEXPRPP _ [a, _, c]) =>
    '(' :: (pre_compl_parF fuel a ++ '^' :: pre_compl_parF fuel c ++ [')'])
  | _ + 1, some (.node .NADD s _) => s
  | _ + 1, some (.node .NSUB s _) => s
  | _ + 1, some (.node .NMUL s _) => s
  | _ + 1, some (.node .NDIV s _) => s
  | _ + 1, some (.node .NATOM s _) => s
  | fuel + 1, some (.node .NEXPRPPP _ [c0]) => pre_compl_parF fuel c0
  | fuel + 1, some (.node .NEXPR _ (c0 :: _)) => pre_compl_parF fuel c0
  | fuel + 1, some (.node .NEXPRP _ (c0 :: _)) => pre_compl_parF fuel c0
  | fuel + 1, some (.node .NEXPRPP _ (c0 :: _)) => pre_compl_parF fuel c0
  | fuel + 1, some (.node .NEXPRPPP _ (_ :: c1 :: _)) => pre_compl_parF fuel c1
  | _ + 1, some _ => []

/-- Second while loop of the chain case (lines 733-739): emit
`op operand )` for every continuation until the single-child epsilon
continuation is reached. -/
def pcpTailF : Nat → Option PtNode → List Char
  | 0, _ => []
  | _ + 1, some (.node _ _ [_]) => []
  | fuel + 1, some (.node _ _ [o, r, k]) =>
    nodeString o ++ pre_compl_parF fuel r ++ ')' :: pcpTailF fuel k
  | _ + 1, _ => []

end

/-- `pre_compl_par` with the fixed top-level fuel. -/
def pre_compl_par (n : Option PtNode) : List Char := pre_compl_parF 1000 n

/-- `strip_parens`: if the string begins with `(`, drop that first
character and the last character (whatever they are); otherwise return the
string unchanged. -/
def strip_parens : List Char → List Char
  | '(' :: rest => rest.dropLast
  | s => s

/-- `compl_par`: composition of `strip_parens` and `pre_compl_par`. -/
def compl_par (n : Option PtNode) : List Char := strip_parens (pre_compl_par n)

mutual

/-- The C `postfix` render function (same case order as `pre_compl_par`;
each emitted atom or operator is followed by one space). -/
def postFormF : Nat → Option PtNode → List Char
  | 0, _ => []
  | _ + 1, none => []
  | fuel + 1, some (.node .NEXPR _ [c0, some (.node _ _ [o, r, k])]) =>
    postFormF fuel c0 ++ postFormF fuel r ++ nodeString o ++ ' ' :: postTailF fuel k
  | fuel + 1, some (.node .NEXPRP _ [c0, some (.node _ _ [o, r, k])]) =>
    postFormF fuel c0 ++ postFormF fuel r ++ nodeString o ++ ' ' :: postTailF fuel k
  | fuel + 1, some (.node .NEXPRPP _ [a, _, c]) =>
    postFormF fuel a ++ postFormF fuel c ++ ['^', ' ']
  | _ + 1, some (.node .NATOM s _) => s ++ [' ']
  | fuel + 1, some (.node .NEXPRPPP _ [c0]) => postFormF fuel c0
  | fuel + 1, some (.node .NEXPR _ (c0 :: _)) => postFormF fuel c0
  | fuel + 1, some (.node .NEXPRP _ (c0 :: _)) => postFormF fuel c0
  | fuel + 1, some (.node .NEXPRPP _ (c0 :: _)) => postFormF fuel c0
  | fuel + 1, some (.node .NEXPRPPP _ (_ :: c1 :: _)) => postFormF fuel c1
  | _ + 1, some _ => []

/-- The continuation loop of the C `postfix` function: `operand op ` for
each further continuation. -/
def postTailF : Nat → Option PtNode → List Char
  | 0, _ => []
  | _ + 1, some (.node _ _ [_]) => []
  | fuel + 1, some (.node _ _ [o, r, k]) =>
    postFormF fuel r ++ nodeString o ++ ' ' :: postTailF fuel k
  | _ + 1, _ => []

end

mutual

/-- The C `prefix` render function.  In the chain case each further
continuation PREPENDS its operator to the accumulated result and appends
the render of its operand, mirroring left-associative grouping. -/
def preFormF : Nat → Option PtNode → List Char
  | 0, _ => []
  | _ + 1, none => []
  | fuel + 1, some (.node .NEXPR _ [c0, some (.node _ _ [o, r, k])]) =>
    preTailF fuel (nodeString o ++ ' ' :: (preFormF fuel c0 ++ preFormF fuel r)) k
  | fuel + 1, some (.node .NEXPRP _ [c0, some (.node _ _ [o, r, k])]) =>
    preTailF fuel (nodeString o ++ ' ' :: (preFormF fuel c0 ++ preFormF fuel r)) k
  | fuel + 1, some (.node .NEXPRPP _ [a, _, c]) =>
    '^' :: ' ' :: (preFormF fuel a ++ preFormF fuel c)
  | _ + 1, some (.node .NATOM s _) => s ++ [' ']
  | fuel + 1, some (.node .NEXPRPPP _ [c0]) => preFormF fuel c0
  | fuel + 1, some (.node .NEXPR _ (c0 :: _)) => preFormF fuel c0
  | fuel + 1, some (.node .NEXPRP _ (c0 :: _)) => preFormF fuel c0
  | fuel + 1, some (.node .NEXPRPP _ (c0 :: _)) => preFormF fuel c0
  | fuel + 1, some (.node .NEXPRPPP _ (_ :: c1 :: _)) => preFormF fuel c1
  | _ + 1, some _ => []

/-- The continuation loop of the C `prefix` function, with the accumulated
result threaded through: new result = `op ` ++ old result ++ render of the
continuation's operand. -/
def preTailF : Nat → List Char → Option PtNode → List Char
  | 0, acc, _ => acc
  | _ + 1, acc, some (.node _ _ [_]) => acc
  | fuel + 1, acc, some (.node _ _ [o, r, k]) =>
    preTailF fuel (nodeString o ++ ' ' :: (acc ++ preFormF fuel r)) k
  | _ + 1, acc, _ => acc

end

/-- The C postfix render with the fixed top-level fuel (`postfix` is a
reserved word in Lean, hence the name). -/
def postForm (n : Option PtNode) : List Char := postFormF 1000 n

/-- The C prefix render with the fixed top-level fuel. -/
def preForm (n : Option PtNode) : List Char := preFormF 1000 n

/-- Does a (possibly NULL) tree contain a NULL anywhere?  A NULL pointer
itself counts. -/
def hasNullF : Nat → Option PtNode → Bool
  | 0, _ => false
  | _ + 1, none => true
  | fuel + 1, some (.node _ _ cs) => cs.any (hasNullF fuel)

/-- Fixed-fuel wrapper for `hasNullF`. -/
def hasNullChild (n : Option PtNode) : Bool := hasNullF 1000 n

/-- Tokens of a string literal (all inputs used below lex successfully). -/
def toks (s : String) : List Token := (input_lexer s.data).getD []

/-- Modelled from the spec: the lookahead the specification describes for
`exprpp` — "scan forward over a balanced-parenthesis run to the token
immediately following the matching closing `)`".  `depth` counts currently
open parentheses; the scan starts at the opening `(` with depth 0 and
returns the (optional) token just past the `)` that closes it. -/
def afterMatchingRparen (depth : Nat) : List Token → Option (Option Token)
  | [] => none
  | t :: rest =>
    match t.type with
    | .LPAREN => afterMatchingRparen (depth + 1) rest
    | .RPAREN =>
      if depth ≤ 1 then some rest.head? else afterMatchingRparen (depth - 1) rest
    | _ => afterMatchingRparen depth rest

/-- The concatenation of the lexemes of a token list. -/
def lexemes : List Token → List Char
  | [] => []
  | t :: ts => t.string ++ lexemes ts

/-- Well-formedness of one lexer-produced token: a non-empty lexeme, and an
ATOM lexeme is all letters or all digits (never intermixed). -/
def tokOk (t : Token) : Prop :=
  t.string ≠ [] ∧
    (t.type = .ATOM → (t.string.all isAlphaC = true ∨ t.string.all isDigitC = true))

/-- Maximal-munch separation between adjacent tokens: an all-letter lexeme
is never followed by a token starting with a letter, and an all-digit
lexeme is never followed by a token starting with a digit (so letter and
digit runs in the input are never split across two atoms). -/
def sepOk (t1 t2 : Token) : Prop :=
  (t1.string.all isAlphaC = true →
    ∀ c, t2.string.head? = some c → isAlphaC c = false) ∧
  (t1.string.all isDigitC = true →
    ∀ c, t2.string.head? = some c → isDigitC c = false)

/- ------------------------------------------------------------------ -/
/- Lexer lemmas (for C9)                                               -/
/- ------------------------------------------------------------------ -/

/-- ASCII letters and digits are disjoint character classes. -/
theorem alpha_not_digit {c : Char} (h : isAlphaC c = true) : isDigitC c = false := by
  simp only [isAlphaC, Bool.or_eq_true, Bool.and_eq_true, decide_eq_true_eq] at h
  by_contra hb
  simp only [Bool.not_eq_false, isDigitC, Bool.and_eq_true, decide_eq_true_eq] at hb
  rcases h with ⟨h1, _⟩ | ⟨h1, _⟩
  · exact absurd (le_trans h1 hb.2) (by decide)
  · exact absurd (le_trans h1 hb.2) (by decide)

/-- The other direction of the disjointness. -/
theorem digit_not_alpha {c : Char} (h : isDigitC c = true) : isAlphaC c = false := by
  by_contra hb
  simp only [Bool.not_eq_false] at hb
  rw [alpha_not_digit hb] at h
  exact Bool.false_ne_true h

/-- Every character kept by `takeWhile` satisfies the predicate. -/
theorem all_takeWhileC (p : Char → Bool) :
    ∀ l : List Char, (l.takeWhile p).all p = true := by
  intro l
  induction l with
  | nil => rfl
  | cons a t ih =>
    by_cases hp : p a = true
    · rw [List.takeWhile_cons, if_pos hp]
      simp [List.all_cons, hp, ih]
    · rw [List.takeWhile_cons, if_neg hp]
      rfl

/-- The first character surviving `dropWhile` fails the predicate. -/
theorem head?_dropWhileC (p : Char → Bool) :
    ∀ (l : List Char) (c : Char), (l.dropWhile p).head? = some c → p c = false := by
  intro l
  induction l with
  | nil => intro c h; simp at h
  | cons a t ih =>
    intro c h
    by_cases hp : p a = true
    · rw [List.dropWhile_cons, if_pos hp] at h
      exact ih c h
    · rw [List.dropWhile_cons, if_neg hp] at h
      simp only [List.head?_cons, Option.some.injEq] at h
      subst h
      simpa using hp

/-- The `switch` only classifies the seven operator/parenthesis characters,
never producing an ATOM type. -/
theorem charTokType_ne_atom {c : Char} {tt : TokType}
    (h : charTokType c = some tt) : tt ≠ .ATOM := by
  unfold charTokType at h
  split_ifs at h <;> injection h with h2 <;> subst h2 <;> decide

/-- `validChar` spelt out: a letter, a digit, or one of `()^*/+-`. -/
theorem validChar_chars (c : Char) :
    validChar c = true ↔ (isAlphaC c = true ∨ isDigitC c = true ∨ c = '(' ∨
      c = ')' ∨ c = '^' ∨ c = '*' ∨ c = '/' ∨ c = '+' ∨ c = '-') := by
  simp only [validChar, charTokType, Bool.or_eq_true]
  split_ifs with h1 h2 h3 h4 h5 h6 h7 <;> simp_all

/-- Soundness of the fueled lexer body: with enough fuel it succeeds exactly
on all-valid input, and a successful run reproduces the input as the
concatenation of non-empty lexemes, with homogeneous atoms and
maximal-munch separation between neighbours. -/
theorem lexF_sound : ∀ (fuel : Nat) (cs : List Char), cs.length < fuel →
    (((lexF fuel cs).isSome = true) ↔ ∀ c ∈ cs, validChar c = true) ∧
    (∀ ts, lexF fuel cs = some ts →
      lexemes ts = cs ∧ (∀ t ∈ ts, tokOk t) ∧ ts.Chain' sepOk) := by
  intro fuel
  induction fuel with
  | zero => intro cs h; exact absurd h (by omega)
  | succ fuel ih =>
    intro cs hlen
    match cs with
    | [] =>
      refine ⟨by simp [lexF], ?_⟩
      intro ts hts
      have hts' : ts = [] := by simpa [lexF] using hts.symm
      subst hts'
      exact ⟨rfl, by simp, List.chain'_nil⟩
    | c :: cs' =>
      have hlen' : cs'.length < fuel := by
        simp only [List.length_cons] at hlen; omega
      by_cases ha : isAlphaC c = true
      · -- maximal letter run
        have hrl : (cs'.dropWhile isAlphaC).length < fuel :=
          lt_of_le_of_lt (List.Sublist.length_le (List.dropWhile_sublist _)) hlen'
        have IH := ih (cs'.dropWhile isAlphaC) hrl
        have heq : lexF (fuel + 1) (c :: cs') =
            (lexF fuel (cs'.dropWhile isAlphaC)).map fun ts =>
              (⟨.ATOM, c :: cs'.takeWhile isAlphaC⟩ : Token) :: ts := by
          simp [lexF, ha]
        refine ⟨?_, ?_⟩
        · rw [heq]
          cases hlf : lexF fuel (cs'.dropWhile isAlphaC) with
          | none =>
            simp only [Option.map_none', Option.isSome_none, Bool.false_eq_true,
              false_iff]
            intro hv
            have : (lexF fuel (cs'.dropWhile isAlphaC)).isSome = true := by
              refine IH.1.mpr ?_
              intro x hx
              exact hv x (List.mem_cons_of_mem _
                ((List.dropWhile_sublist _).subset hx))
            rw [hlf] at this
            simp at this
          | some ts0 =>
            simp only [Option.map_some', Option.isSome_some, true_iff]
            intro c0 hc0
            rcases List.mem_cons.mp hc0 with rfl | hmem
            · simp [validChar, ha]
            · have hsplit : c0 ∈ cs'.takeWhile isAlphaC ++ cs'.dropWhile isAlphaC := by
                rw [List.takeWhile_append_dropWhile]; exact hmem
              rcases List.mem_append.mp hsplit with hm | hm
              · have := List.mem_takeWhile_imp hm
                simp [validChar, this]
              · exact (IH.1.mp (by rw [hlf]; rfl)) c0 hm
        · intro ts hts
          rw [heq] at hts
          rcases Option.map_eq_some'.mp hts with ⟨ts0, hlf, hts0⟩
          subst hts0
          obtain ⟨hflat, htok, hchain⟩ := IH.2 ts0 hlf
          refine ⟨?_, ?_, ?_⟩
          · show (c :: cs'.takeWhile isAlphaC) ++ lexemes ts0 = c :: cs'
            rw [hflat, List.cons_append, List.takeWhile_append_dropWhile]
          · intro t ht
            rcases List.mem_cons.mp ht with rfl | hmem
            · refine ⟨by simp, fun _ => Or.inl ?_⟩
              simp only [List.all_cons, ha, Bool.true_and]
              exact all_takeWhileC _ _
            · exact htok t hmem
          · rw [List.chain'_cons']
            refine ⟨?_, hchain⟩
            intro t2 ht2
            have ht2mem : t2 ∈ ts0 := List.mem_of_mem_head? ht2
            have hne : t2.string ≠ [] := (htok t2 ht2mem).1
            obtain ⟨d, ss, hds⟩ : ∃ d ss, t2.string = d :: ss := by
              cases hcase : t2.string with
              | nil => exact absurd hcase hne
              | cons d ss => exact ⟨d, ss, rfl⟩
            have hrest_head : (cs'.dropWhile isAlphaC).head? = some d := by
              cases hts0c : ts0 with
              | nil => rw [hts0c] at ht2; simp at ht2
              | cons u tl =>
                rw [hts0c] at ht2
                rw [Option.mem_def] at ht2
                simp only [List.head?_cons, Option.some.injEq] at ht2
                rw [hts0c] at hflat
                rw [← hflat]
                show (u.string ++ lexemes tl).head? = some d
                rw [ht2, hds]
                rfl
            have hdan := head?_dropWhileC isAlphaC cs' d hrest_head
            constructor
            · intro _ c0 hc0
              rw [hds] at hc0
              simp only [List.head?_cons, Option.some.injEq] at hc0
              subst hc0
              exact hdan
            · intro hdig
              exfalso
              simp only [List.all_cons, Bool.and_eq_true] at hdig
              rw [alpha_not_digit ha] at hdig
              exact Bool.false_ne_true hdig.1
      · by_cases hd : isDigitC c = true
        · -- maximal digit run
          have ha' : isAlphaC c = false := by simpa using ha
          have hrl : (cs'.dropWhile isDigitC).length < fuel :=
            lt_of_le_of_lt (List.Sublist.length_le (List.dropWhile_sublist _)) hlen'
          have IH := ih (cs'.dropWhile isDigitC) hrl
          have heq : lexF (fuel + 1) (c :: cs') =
              (lexF fuel (cs'.dropWhile isDigitC)).map fun ts =>
                (⟨.ATOM, c :: cs'.takeWhile isDigitC⟩ : Token) :: ts := by
            simp [lexF, ha', hd]
          refine ⟨?_, ?_⟩
          · rw [heq]
            cases hlf : lexF fuel (cs'.dropWhile isDigitC) with
            | none =>
              simp only [Option.map_none', Option.isSome_none, Bool.false_eq_true,
                false_iff]
              intro hv
              have : (lexF fuel (cs'.dropWhile isDigitC)).isSome = true := by
                refine IH.1.mpr ?_
                intro x hx
                exact hv x (List.mem_cons_of_mem _
                  ((List.dropWhile_sublist _).subset hx))
              rw [hlf] at this
              simp at this
            | some ts0 =>
              simp only [Option.map_some', Option.isSome_some, true_iff]
              intro c0 hc0
              rcases List.mem_cons.mp hc0 with rfl | hmem
              · simp [validChar, hd]
              · have hsplit : c0 ∈ cs'.takeWhile isDigitC ++ cs'.dropWhile isDigitC := by
                  rw [List.takeWhile_append_dropWhile]; exact hmem
                rcases List.mem_append.mp hsplit with hm | hm
                · have := List.mem_takeWhile_imp hm
                  simp [validChar, this]
                · exact (IH.1.mp (by rw [hlf]; rfl)) c0 hm
          · intro ts hts
            rw [heq] at hts
            rcases Option.map_eq_some'.mp hts with ⟨ts0, hlf, hts0⟩
            subst hts0
            obtain ⟨hflat, htok, hchain⟩ := IH.2 ts0 hlf
            refine ⟨?_, ?_, ?_⟩
            · show (c :: cs'.takeWhile isDigitC) ++ lexemes ts0 = c :: cs'
              rw [hflat, List.cons_append, List.takeWhile_append_dropWhile]
            · intro t ht
              rcases List.mem_cons.mp ht with rfl | hmem
              · refine ⟨by simp, fun _ => Or.inr ?_⟩
                simp only [List.all_cons, hd, Bool.true_and]
                exact all_takeWhileC _ _
              · exact htok t hmem
            · rw [List.chain'_cons']
              refine ⟨?_, hchain⟩
              intro t2 ht2
              have ht2mem : t2 ∈ ts0 := List.mem_of_mem_head? ht2
              have hne : t2.string ≠ [] := (htok t2 ht2mem).1
              obtain ⟨d, ss, hds⟩ : ∃ d ss, t2.string = d :: ss := by
                cases hcase : t2.string with
                | nil => exact absurd hcase hne
                | cons d ss => exact ⟨d, ss, rfl⟩
              have hrest_head : (cs'.dropWhile isDigitC).head? = some d := by
                cases hts0c : ts0 with
                | nil => rw [hts0c] at ht2; simp at ht2
                | cons u tl =>
                  rw [hts0c] at ht2
                  rw [Option.mem_def] at ht2
                  simp only [List.head?_cons, Option.some.injEq] at ht2
                  rw [hts0c] at hflat
                  rw [← hflat]
                  show (u.string ++ lexemes tl).head? = some d
                  rw [ht2, hds]
                  rfl
              have hdan := head?_dropWhileC isDigitC cs' d hrest_head
              constructor
              · intro halp
                exfalso
                simp only [List.all_cons, Bool.and_eq_true] at halp
                rw [digit_not_alpha hd] at halp
                exact Bool.false_ne_true halp.1
              · intro _ c0 hc0
                rw [hds] at hc0
                simp only [List.head?_cons, Option.some.injEq] at hc0
                subst hc0
                exact hdan
        · -- single-character token or invalid character
          have ha' : isAlphaC c = false := by simpa using ha
          have hd' : isDigitC c = false := by simpa using hd
          cases hct : charTokType c with
          | none =>
            have heq : lexF (fuel + 1) (c :: cs') = none := by
              simp [lexF, ha', hd', hct]
            refine ⟨?_, ?_⟩
            · rw [heq]
              simp only [Option.isSome_none, Bool.false_eq_true, false_iff]
              intro hv
              have := hv c (by simp)
              rw [validChar, ha', hd', hct] at this
              simp at this
            · intro ts hts
              rw [heq] at hts
              exact absurd hts (by simp)
          | some tt =>
            have heq : lexF (fuel + 1) (c :: cs') =
                (lexF fuel cs').map fun ts => (⟨tt, [c]⟩ : Token) :: ts := by
              simp [lexF, ha', hd', hct]
            have IH := ih cs' hlen'
            refine ⟨?_, ?_⟩
            · rw [heq]
              cases hlf : lexF fuel cs' with
              | none =>
                simp only [Option.map_none', Option.isSome_none, Bool.false_eq_true,
                  false_iff]
                intro hv
                have : (lexF fuel cs').isSome = true := by
                  refine IH.1.mpr ?_
                  intro x hx
                  exact hv x (List.mem_cons_of_mem _ hx)
                rw [hlf] at this
                simp at this
              | some ts0 =>
                simp only [Option.map_some', Option.isSome_some, true_iff]
                intro c0 hc0
                rcases List.mem_cons.mp hc0 with rfl | hmem
                · rw [validChar, hct]
                  simp
                · exact (IH.1.mp (by rw [hlf]; rfl)) c0 hmem
            · intro ts hts
              rw [heq] at hts
              rcases Option.map_eq_some'.mp hts with ⟨ts0, hlf, hts0⟩
              subst hts0
              obtain ⟨hflat, htok, hchain⟩ := IH.2 ts0 hlf
              refine ⟨?_, ?_, ?_⟩
              · show [c] ++ lexemes ts0 = c :: cs'
                rw [hflat]
                rfl
              · intro t ht
                rcases List.mem_cons.mp ht with rfl | hmem
                · exact ⟨by simp, fun hatom => absurd hatom (charTokType_ne_atom hct)⟩
                · exact htok t hmem
              · rw [List.chain'_cons']
                refine ⟨?_, hchain⟩
                intro t2 _
                constructor
                · intro halp
                  exfalso
                  simp only [List.all_cons, List.all_nil, Bool.and_true] at halp
                  rw [ha'] at halp
                  exact Bool.false_ne_true halp
                · intro hdig
                  exfalso
                  simp only [List.all_cons, List.all_nil, Bool.and_true] at hdig
                  rw [hd'] at hdig
                  exact Bool.false_ne_true hdig

/- ------------------------------------------------------------------ -/
/- Claim theorems                                                      -/
/- ------------------------------------------------------------------ -/

/-- C1 (code bug, failing input `((a))^b`): the spec requires the `^`
lookahead to scan past the MATCHING `)` of a balanced run; on `((a))^b`
that boundary token is `^` (first conjunct, via the spec-modelled scan),
but the C loop stops at the FIRST `)`, whose successor is another `)`
(second conjunct), so the `^` production is not consumed: the parse stops
with `^ b` unconsumed, prints nothing, and renders only `a`. -/
theorem c1_lookahead_code_bug :
    afterMatchingRparen 0 (toks "((a))^b") = some (some ⟨.EXP, "^".data⟩) ∧
    afterFirstRparen (toks "((a))^b") = some (some ⟨.RPAREN, ")".data⟩) ∧
    (expr (toks "((a))^b")).rest = [⟨.EXP, "^".data⟩, ⟨.ATOM, "b".data⟩] ∧
    (expr (toks "((a))^b")).msgs = [] ∧
    postForm (expr (toks "((a))^b")).node = "a ".data ∧
    (expr (toks "(a+b)^c")).rest = [] ∧
    postForm (expr (toks "(a+b)^c")).node = "a b + c ^ ".data := by decide

/-- C2 counterexample at input `a+`: the claim says parsing fails with a
reported ParseError, but `expr` returns a tree, consumes the whole token
sequence, prints no diagnostic at all, and the renderers produce ordinary
non-empty output. -/
theorem c2_counterexample :
    (expr (toks "a+")).node.isSome = true ∧
    (expr (toks "a+")).rest = [] ∧
    (expr (toks "a+")).msgs = [] ∧
    compl_par (expr (toks "a+")).node = "a+".data ∧
    postForm (expr (toks "a+")).node = "a + ".data := by decide

/-- C2 amended: on malformed input the parser produces no error value; a
failing sub-parse returns NULL, which is embedded in the returned tree.
`(a+b` and `a+*b` both fail through the same no-`)`-found path of `exprpp`
printing the same `Invalid input!` diagnostic (no UnexpectedEnd vs
UnexpectedToken distinction exists), while `a+` fails silently; in each
case `expr` still returns a tree with a NULL child. -/
theorem c2_amended :
    (expr (toks "(a+b")).msgs = ["Invalid input!"] ∧
    (expr (toks "(a+b")).rest = toks "(a+b" ∧
    hasNullChild (expr (toks "(a+b")).node = true ∧
    (expr (toks "(a+b")).node.isSome = true ∧
    (expr (toks "a+*b")).msgs = ["Invalid input!"] ∧
    hasNullChild (expr (toks "a+*b")).node = true ∧
    (expr (toks "a+*b")).node.isSome = true ∧
    (expr (toks "a+")).msgs = [] ∧
    hasNullChild (expr (toks "a+")).node = true ∧
    (expr (toks "a+")).node.isSome = true := by decide

/-- C3 (code bug, failing input `((a))^b`): this valid token sequence (a
complete expression of the documented grammar) parses with `^ b` left
unconsumed, so all three renders mention only the atom `a` — they do not
contain "exactly the atoms and operators present in the input". -/
theorem c3_renders_code_bug :
    compl_par (expr (toks "((a))^b")).node = "a".data ∧
    postForm (expr (toks "((a))^b")).node = "a ".data ∧
    preForm (expr (toks "((a))^b")).node = "a ".data ∧
    (expr (toks "((a))^b")).rest ≠ [] := by decide

/-- C4 (code bug, failing input `(a+b)^c*d`): the input parses completely
with no NULL children, and its fully-parenthesized render is
`((a+b)^c)*d`; but re-tokenizing and re-parsing that render yields a tree
whose postfix and prefix renders differ from the original's (the first-`)`
lookahead sends the re-parse into the `^` production, after which `expo`
mismatches on `*`, consumes it and stores NULL). -/
theorem c4_roundtrip_code_bug :
    (expr (toks "(a+b)^c*d")).rest = [] ∧
    hasNullChild (expr (toks "(a+b)^c*d")).node = false ∧
    compl_par (expr (toks "(a+b)^c*d")).node = "((a+b)^c)*d".data ∧
    postForm (expr (toks "(a+b)^c*d")).node = "a b + c ^ d * ".data ∧
    preForm (expr (toks "(a+b)^c*d")).node = "* ^ + a b c d ".data ∧
    postForm (expr ((input_lexer
      (compl_par (expr (toks "(a+b)^c*d")).node)).getD [])).node
        = "a b + c ^ d ^ ".data ∧
    preForm (expr ((input_lexer
      (compl_par (expr (toks "(a+b)^c*d")).node)).getD [])).node
        = "^ ^ + a b c d ".data := by decide

/-- C5 counterexample: the renders of `a-b-c` are not the exact strings the
claim quotes — each emitted atom and operator is followed by one space, so
the actual strings end in a trailing space. -/
theorem c5_counterexample :
    ¬(postForm (expr (toks "a-b-c")).node = "a b - c -".data ∧
      preForm (expr (toks "a-b-c")).node = "- - a b c".data) := by decide

/-- C5 amended: `a-b-c` parses left-associatively; its postfix render is
`a b - c - ` and its prefix render is `- - a b c ` (each token followed by
a single space, including a trailing one). -/
theorem c5_amended :
    postForm (expr (toks "a-b-c")).node = "a b - c - ".data ∧
    preForm (expr (toks "a-b-c")).node = "- - a b c ".data := by decide

/-- C6 counterexample: the renders of `a^b^c` likewise carry a trailing
space, so the claim's exact strings do not match. -/
theorem c6_counterexample :
    ¬(postForm (expr (toks "a^b^c")).node = "a b c ^ ^".data ∧
      preForm (expr (toks "a^b^c")).node = "^ a ^ b c".data) := by decide

/-- C6 amended: `a^b^c` parses right-associatively as `a^(b^c)`; postfix
render `a b c ^ ^ ` and prefix render `^ a ^ b c ` (trailing space). -/
theorem c6_amended :
    postForm (expr (toks "a^b^c")).node = "a b c ^ ^ ".data ∧
    preForm (expr (toks "a^b^c")).node = "^ a ^ b c ".data := by decide

/-- C7 counterexample: for `(a+3)+var^(b+282*c)` the fully-parenthesized
render matches the claim exactly, but the postfix and prefix renders end
in a trailing space, so the claimed exact strings do not all match. -/
theorem c7_counterexample :
    ¬(compl_par (expr (toks "(a+3)+var^(b+282*c)")).node
        = "(a+3)+(var^(b+(282*c)))".data ∧
      postForm (expr (toks "(a+3)+var^(b+282*c)")).node
        = "a 3 + var b 282 c * + ^ +".data ∧
      preForm (expr (toks "(a+3)+var^(b+282*c)")).node
        = "+ + a 3 ^ var + b * 282 c".data) := by decide

/-- C7 amended: the end-to-end example holds with the postfix and prefix
strings carrying a trailing space. -/
theorem c7_amended :
    compl_par (expr (toks "(a+3)+var^(b+282*c)")).node
      = "(a+3)+(var^(b+(282*c)))".data ∧
    postForm (expr (toks "(a+3)+var^(b+282*c)")).node
      = "a 3 + var b 282 c * + ^ + ".data ∧
    preForm (expr (toks "(a+3)+var^(b+282*c)")).node
      = "+ + a 3 ^ var + b * 282 c ".data := by decide

/-- C8 counterexample at input `(a)`: the fully-parenthesized render is
`a` — the parentheses the user explicitly wrote around the primary do NOT
survive in the output, contradicting the claim. -/
theorem c8_counterexample :
    compl_par (expr (toks "(a)")).node = "a".data ∧
    compl_par (expr (toks "(a)")).node ≠ "(a)".data := by decide

/-- C8 amended: `strip_parens` drops the first and last character whenever
the render begins with `(` (one leading+trailing pair) and is the identity
otherwise; but a parenthesized Primary does not keep the user's
parentheses: `pre_compl_par` of a three-child NEXPRPPP node is the render
of its inner expression (second child), so `(a)` renders as `a`, and the
parentheses seen around operations, as in `(a+b)*c`, are the chain
renderer's own. -/
theorem c8_amended :
    (∀ s : List Char, strip_parens ('(' :: s) = s.dropLast) ∧
    (∀ s : List Char, s.head? ≠ some '(' → strip_parens s = s) ∧
    (∀ (fuel : Nat) (st : List Char) (c0 c1 : Option PtNode)
        (cs : List (Option PtNode)),
      pre_compl_parF (fuel + 1) (some (.node .NEXPRPPP st (c0 :: c1 :: cs))) =
        pre_compl_parF fuel c1) ∧
    compl_par (expr (toks "(a)")).node = "a".data ∧
    compl_par (expr (toks "(a+b)*c")).node = "(a+b)*c".data := by
  refine ⟨fun s => rfl, ?_, fun fuel st c0 c1 cs => rfl, by decide, by decide⟩
  intro s h
  match s with
  | [] => rfl
  | c :: t =>
    have hc : c ≠ '(' := by simpa using h
    rw [strip_parens.eq_def]
    split
    all_goals try rfl
    all_goals rename_i heq; simp_all

/-- C8 witness: the amended theorem applied at concrete inputs. -/
theorem c8_amended_witness :
    strip_parens "(x+y)".data = "x+y".data ∧ strip_parens "ab".data = "ab".data := by
  refine ⟨?_, ?_⟩
  · have h := c8_amended.1 "x+y)".data
    exact h.trans (by decide)
  · exact c8_amended.2.1 "ab".data (by decide)

/-- C9: `input_lexer` succeeds exactly when every input character is a
letter, a digit, or one of `()^*/+-` (first two conjuncts), and a
successful run returns tokens whose non-empty lexemes concatenate back to
the input, with every ATOM lexeme all-letters or all-digits (never
intermixed) and with maximal munch — an all-letter lexeme is never
followed by a token starting with a letter, nor an all-digit lexeme by a
token starting with a digit, so a maximal letter or digit run of the input
always lands in a single Atom token. -/
theorem c9_tokenize_contract :
    (∀ c : Char, validChar c = true ↔ (isAlphaC c = true ∨ isDigitC c = true ∨
      c = '(' ∨ c = ')' ∨ c = '^' ∨ c = '*' ∨ c = '/' ∨ c = '+' ∨ c = '-')) ∧
    (∀ cs : List Char,
      (((input_lexer cs).isSome = true) ↔ ∀ c ∈ cs, validChar c = true) ∧
      (∀ ts, input_lexer cs = some ts →
        lexemes ts = cs ∧ (∀ t ∈ ts, tokOk t) ∧ ts.Chain' sepOk)) := by
  refine ⟨validChar_chars, fun cs => ?_⟩
  have h := lexF_sound (cs.length + 1) cs (by omega)
  exact ⟨h.1, h.2⟩

/-- C9 witness: the contract applied to the concrete input `ab12+x`, whose
lexing succeeds (all characters valid) and produces the four tokens
`ab`, `12`, `+`, `x`; and to the invalid inputs `a$b` and `a b`. -/
theorem c9_tokenize_contract_witness :
    (input_lexer "ab12+x".data).isSome = true ∧
    lexemes [⟨.ATOM, "ab".data⟩, ⟨.ATOM, "12".data⟩, ⟨.ADD, "+".data⟩,
      ⟨.ATOM, "x".data⟩] = "ab12+x".data ∧
    tokOk ⟨.ATOM, "ab".data⟩ ∧
    ¬((input_lexer "a$b".data).isSome = true) ∧
    ¬((input_lexer "a b".data).isSome = true) := by
  have h := c9_tokenize_contract
  refine ⟨(h.2 "ab12+x".data).1.mpr (by decide), ?_, ?_, ?_, ?_⟩
  · exact ((h.2 "ab12+x".data).2 [⟨.ATOM, "ab".data⟩, ⟨.ATOM, "12".data⟩,
      ⟨.ADD, "+".data⟩, ⟨.ATOM, "x".data⟩] (by rfl)).1
  · exact (((h.2 "ab12+x".data).2 [⟨.ATOM, "ab".data⟩, ⟨.ATOM, "12".data⟩,
      ⟨.ADD, "+".data⟩, ⟨.ATOM, "x".data⟩] (by rfl)).2.1) ⟨.ATOM, "ab".data⟩
        (by decide)
  · intro hs
    have := (h.2 "a$b".data).1.mp hs '$' (by decide)
    exact absurd this (by decide)
  · intro hs
    have := (h.2 "a b".data).1.mp hs ' ' (by decide)
    exact absurd this (by decide)

/-- C10: the top-level `expr` always returns a non-NULL node, for every
token sequence; all three renderers render a NULL pointer as the empty
string; and on the malformed input `a+` the failure of the inner `exprpp`
is recorded only as a NULL child inside the otherwise normal tree that
`expr` returns. -/
theorem c10_null_embedding :
    (∀ ts : List Token, (expr ts).node.isSome = true) ∧
    pre_compl_par none = [] ∧ postForm none = [] ∧ preForm none = [] ∧
    hasNullChild (expr (toks "a+")).node = true ∧
    (expr (toks "a+")).node.isSome = true :=
  ⟨fun _ => rfl, rfl, rfl, rfl, by decide, by decide⟩

end SimpleParse
